import Mathlib

/-!
Shallow embedding of the geometric/numeric core of `egg_generator.py`
(StreamlitEggGenerator): the egg profile function `egg_equation`, the
volume integrator `calculate_egg_volume`, the 2D preview sampler
`generate_2d_preview` and the 3D mesh builder `generate_3d_model`.

Python floats are modelled as real numbers (exact arithmetic); a numpy
computation that would produce no real number (division by a zero length,
`np.sqrt` of a negative radicand, i.e. NaN) is modelled by `Option.none`.
`scipy.integrate.quad` (adaptive quadrature of a continuous integrand) is
modelled by the exact interval integral.
-/

namespace EggGen

noncomputable section

/-- Maximum of a list of reals (`np.max`); `np.max` is only applied to
nonempty lists in the source, the `[]` case is an unused sentinel. -/
def listMax : List ℝ → ℝ
  | [] => 0
  | a :: l => l.foldl max a

/-- Sample grid `np.linspace(s, e, k)`: `k` evenly spaced points from `s`
to `e` inclusive, step `(e - s)/(k - 1)`. -/
def linspace (s e : ℝ) (k : ℕ) : List ℝ :=
  (List.range k).map (fun j : ℕ => s + (e - s) * (j : ℝ) / ((k : ℝ) - 1))

/-- Value computed by the body of `egg_equation` (egg_generator.py lines
35-41): with `a = L/2`, `b = B/2`, `k = D_L4/L - 0.5`, `c = n/10`,
`y = b * sqrt(1 - (x/a)^2) * (1 + c*(x/a) + k*(x/a)^2)`.  There is no
`max(0, ...)` clamp around the radicand in the source. -/
def egg_equation_val (B L D_L4 n x : ℝ) : ℝ :=
  B / 2 * Real.sqrt (1 - (x / (L / 2)) ^ 2) *
    (1 + n / 10 * (x / (L / 2)) + (D_L4 / L - 0.5) * (x / (L / 2)) ^ 2)

/-- The profile function `egg_equation(x, B, L, D_L4, n)`.  `none` models
the cases where the float computation yields no real number: a zero
half-length `a = L/2` (division by zero) or a negative radicand passed to
`np.sqrt` (NaN). -/
def egg_equation (B L D_L4 n x : ℝ) : Option ℝ :=
  if L / 2 = 0 ∨ 1 - (x / (L / 2)) ^ 2 < 0 then none
  else some (egg_equation_val B L D_L4 n x)

/-- Modelled from the spec (section 4.1): the profile formula as the spec
states it, `r(x) = b * sqrt(max(0, 1 - (x/a)^2)) * (1 + c*(x/a) + k*(x/a)^2)`,
with the radicand clamped at zero.  Used only to compare the spec's claimed
clamped formula with the source's unclamped one. -/
def egg_equation_spec (B L D_L4 n x : ℝ) : Option ℝ :=
  if L / 2 = 0 then none
  else some ((B / 2) * Real.sqrt (max 0 (1 - (x / (L / 2)) ^ 2)) *
    (1 + (n / 10) * (x / (L / 2)) + (D_L4 / L - 0.5) * (x / (L / 2)) ^ 2))

/-- `calculate_egg_volume` (lines 43-52): `quad(pi * egg_equation(x)^2, -a, a)`,
modelled as the exact interval integral of the raw (unscaled) profile. -/
def calculate_egg_volume (B L D_L4 n : ℝ) : ℝ :=
  let a := L / 2
  ∫ x in (-a)..a, Real.pi * (egg_equation_val B L D_L4 n x) ^ 2

/-- Preview axial grid (line 55): `x = np.linspace(-L/2, L/2, 1000)`. -/
def preview_xs (L : ℝ) : List ℝ := linspace (-(L / 2)) (L / 2) 1000

/-- Preview profile samples (line 56): `y = egg_equation(x, ...)`, value level. -/
def preview_ys (B L D_L4 n : ℝ) : List ℝ :=
  (preview_xs L).map (egg_equation_val B L D_L4 n)

/-- Preview scale factor (lines 59-60): `max_width = np.max(y) * 2;
scale_factor = B / max_width`. -/
def preview_scale (B L D_L4 n : ℝ) : ℝ :=
  B / (listMax (preview_ys B L D_L4 n) * 2)

/-- Rescaled preview samples (line 62): `y_scaled = y * scale_factor`. -/
def preview_ys_scaled (B L D_L4 n : ℝ) : List ℝ :=
  (preview_ys B L D_L4 n).map (fun y => y * preview_scale B L D_L4 n)

/-- `generate_2d_preview` (lines 54-62), up to its plotting collaborator:
the sampled axial grid and the rescaled profile samples.  `none` when a
profile sample is undefined (NaN). -/
def generate_2d_preview (B L D_L4 n : ℝ) : Option (List ℝ × List ℝ) :=
  ((preview_xs L).mapM (egg_equation B L D_L4 n)).map (fun ys =>
    let scale := B / (listMax ys * 2)
    (preview_xs L, ys.map (fun y => y * scale)))

/-- Angular sample count (line 93): `num_l_points = int((L * 1.16) + 50)`.
Python `int()` truncates toward zero, which is the floor for the
nonnegative arguments arising from positive sizes; clamped to `ℕ` for use
as a list length. -/
def num_l_points (L : ℝ) : ℕ := (Int.floor (L * 1.16 + 50)).toNat

/-- Axial sample count (line 94): `num_w_points = int((B * 1.16) + 50)`. -/
def num_w_points (B : ℝ) : ℕ := (Int.floor (B * 1.16 + 50)).toNat

/-- Axial parameter grid (line 96): `t = np.linspace(0, np.pi, num_w_points)`. -/
def mesh_ts (B : ℝ) : List ℝ := linspace 0 Real.pi (num_w_points B)

/-- Cosine-spaced axial samples (line 97): `x = (L/2) * np.cos(t)`. -/
def mesh_xs (B L : ℝ) : List ℝ := (mesh_ts B).map (fun t => L / 2 * Real.cos t)

/-- Angular grid (line 99): `theta = np.linspace(0, 2*np.pi, num_l_points)`. -/
def mesh_thetas (L : ℝ) : List ℝ := linspace 0 (2 * Real.pi) (num_l_points L)

/-- Row of raw profile samples (line 102): `R = egg_equation(X, ...)`
depends only on the axial coordinate, so one row of the `meshgrid` result;
value level. -/
def mesh_Rvals (B L D_L4 n : ℝ) : List ℝ :=
  (mesh_xs B L).map (egg_equation_val B L D_L4 n)

/-- `max_width = np.max(R) * 2` (line 105): the maximum is taken over the
whole `n_theta × n_x` grid `R`, whose rows are all equal to `mesh_Rvals`. -/
def mesh_maxWidth (B L D_L4 n : ℝ) : ℝ :=
  listMax (((mesh_thetas L).map (fun _ => mesh_Rvals B L D_L4 n)).flatten) * 2

/-- `scale_factor = B / max_width` (line 106). -/
def mesh_scale (B L D_L4 n : ℝ) : ℝ := B / mesh_maxWidth B L D_L4 n

/-- `R_scaled = R * scale_factor` (line 108), one grid row. -/
def mesh_RsScaled (B L D_L4 n : ℝ) : List ℝ :=
  (mesh_Rvals B L D_L4 n).map (fun r => r * mesh_scale B L D_L4 n)

/-- Vertex `(i, j)` of the flattened vertex grid (lines 110-113):
`(x_j, R_scaled_j * cos(theta_i), R_scaled_j * sin(theta_i))`. -/
def meshVertex (B L D_L4 n : ℝ) (i j : ℕ) : ℝ × ℝ × ℝ :=
  ((mesh_xs B L).getD j 0,
   (mesh_RsScaled B L D_L4 n).getD j 0 * Real.cos ((mesh_thetas L).getD i 0),
   (mesh_RsScaled B L D_L4 n).getD j 0 * Real.sin ((mesh_thetas L).getD i 0))

/-- `vertices = np.column_stack([X.flatten(), Y.flatten(), Z.flatten()])`
(line 113): row-major flattening, vertex index `i * n_x + j`. -/
def meshVertices (B L D_L4 n : ℝ) : List (ℝ × ℝ × ℝ) :=
  (List.range (num_l_points L)).flatMap (fun i =>
    (List.range (num_w_points B)).map (fun j => meshVertex B L D_L4 n i j))

/-- Triangulation of the quad grid (lines 115-123): for each quad `(i, j)`
the two triangles `[v0, v1, v2]` and `[v1, v3, v2]` with
`v0 = i*n_x + j`, `v1 = v0 + 1`, `v2 = (i+1)*n_x + j`, `v3 = v2 + 1`. -/
def meshFaces (n_theta n_x : ℕ) : List (ℕ × ℕ × ℕ) :=
  (List.range (n_theta - 1)).flatMap (fun i =>
    (List.range (n_x - 1)).flatMap (fun j =>
      [(i * n_x + j, i * n_x + j + 1, (i + 1) * n_x + j),
       (i * n_x + j + 1, (i + 1) * n_x + j + 1, (i + 1) * n_x + j)]))

/-- A surface of revolution mesh: vertex positions plus triangular faces
given as triples of vertex indices. -/
structure SurfaceMesh where
  vertices : List (ℝ × ℝ × ℝ)
  faces : List (ℕ × ℕ × ℕ)

/-- The mesh assembled from the value-level sample lists. -/
def meshOf (B L D_L4 n : ℝ) : SurfaceMesh :=
  { vertices := meshVertices B L D_L4 n
    faces := meshFaces (num_l_points L) (num_w_points B) }

/-- `generate_3d_model` (lines 91-128) up to the STL file export: samples
the profile on the cosine-spaced axial grid, rescales by
`B / (np.max(R) * 2)`, revolves, and triangulates.  `none` when a profile
sample is undefined (NaN). -/
def generate_3d_model (B L D_L4 n : ℝ) : Option SurfaceMesh :=
  ((mesh_xs B L).mapM (egg_equation B L D_L4 n)).map (fun Rs =>
    let maxWidth := listMax (((mesh_thetas L).map (fun _ => Rs)).flatten) * 2
    let scale := B / maxWidth
    let RsScaled := Rs.map (fun r => r * scale)
    { vertices := (List.range (num_l_points L)).flatMap (fun i =>
        (List.range (num_w_points B)).map (fun j =>
          ((mesh_xs B L).getD j 0,
           RsScaled.getD j 0 * Real.cos ((mesh_thetas L).getD i 0),
           RsScaled.getD j 0 * Real.sin ((mesh_thetas L).getD i 0))))
      faces := meshFaces (num_l_points L) (num_w_points B) })

/-- Cross product of two vectors in `ℝ³`. -/
def vcross (u v : ℝ × ℝ × ℝ) : ℝ × ℝ × ℝ :=
  (u.2.1 * v.2.2 - u.2.2 * v.2.1,
   u.2.2 * v.1 - u.1 * v.2.2,
   u.1 * v.2.1 - u.2.1 * v.1)

/-- Edge cross product of a triangle `(p, q, r)`: `(q - p) × (r - p)`.
The triangle has zero area exactly when this vanishes. -/
def triCross (p q r : ℝ × ℝ × ℝ) : ℝ × ℝ × ℝ :=
  vcross (q.1 - p.1, q.2.1 - p.2.1, q.2.2 - p.2.2)
         (r.1 - p.1, r.2.1 - p.2.1, r.2.2 - p.2.2)

/-! Helper lemmas about `listMax` and `foldl max`. -/

theorem foldl_max_assoc (l : List ℝ) : ∀ b c : ℝ, l.foldl max (max b c) = max b (l.foldl max c) := by
  induction l with
  | nil => intro b c; simp
  | cons d t ih =>
    intro b c
    simp only [List.foldl_cons]
    rw [max_assoc, ih]

theorem le_foldl_max_init (l : List ℝ) : ∀ a : ℝ, a ≤ l.foldl max a := by
  induction l with
  | nil => intro a; simp
  | cons c t ih => intro a; exact le_trans (le_max_left a c) (ih (max a c))

theorem le_foldl_max_of_mem {l : List ℝ} {x : ℝ} (hx : x ∈ l) : ∀ a : ℝ, x ≤ l.foldl max a := by
  induction l with
  | nil => cases hx
  | cons c t ih =>
    intro a
    simp only [List.foldl_cons]
    rcases List.mem_cons.mp hx with h | h
    · subst h
      exact le_trans (le_max_right a x) (le_foldl_max_init t _)
    · exact ih h (max a c)

theorem le_listMax_of_mem {l : List ℝ} {x : ℝ} (hx : x ∈ l) : x ≤ listMax l := by
  cases l with
  | nil => cases hx
  | cons a t =>
    rcases List.mem_cons.mp hx with h | h
    · subst h
      exact le_foldl_max_init t x
    · exact le_foldl_max_of_mem h a

theorem max_mul_right_nonneg (a c : ℝ) {s : ℝ} (hs : 0 ≤ s) :
    max (a * s) (c * s) = max a c * s := by
  rcases le_total a c with h | h
  · rw [max_eq_right (mul_le_mul_of_nonneg_right h hs), max_eq_right h]
  · rw [max_eq_left (mul_le_mul_of_nonneg_right h hs), max_eq_left h]

theorem foldl_max_map_mul (l : List ℝ) {s : ℝ} (hs : 0 ≤ s) :
    ∀ a : ℝ, (l.map (fun y => y * s)).foldl max (a * s) = l.foldl max a * s := by
  induction l with
  | nil => intro a; simp
  | cons c t ih =>
    intro a
    simp only [List.map_cons, List.foldl_cons]
    rw [max_mul_right_nonneg a c hs, ih]

theorem listMax_map_mul (l : List ℝ) {s : ℝ} (hs : 0 ≤ s) :
    listMax (l.map (fun y => y * s)) = listMax l * s := by
  cases l with
  | nil => simp [listMax]
  | cons a t =>
    show (t.map (fun y => y * s)).foldl max (a * s) = t.foldl max a * s
    exact foldl_max_map_mul t hs a

theorem listMax_append (l₁ l₂ : List ℝ) (h₁ : l₁ ≠ []) (h₂ : l₂ ≠ []) :
    listMax (l₁ ++ l₂) = max (listMax l₁) (listMax l₂) := by
  cases l₁ with
  | nil => exact absurd rfl h₁
  | cons a t =>
    cases l₂ with
    | nil => exact absurd rfl h₂
    | cons b u =>
      show (t ++ b :: u).foldl max a = max (t.foldl max a) (u.foldl max b)
      rw [List.foldl_append]
      simp only [List.foldl_cons]
      exact foldl_max_assoc u (t.foldl max a) b

theorem flatten_replicate_nil {α : Type} (m : ℕ) :
    (List.replicate m ([] : List α)).flatten = [] := by
  induction m with
  | zero => rfl
  | succ m ih => simp [List.replicate_succ, ih]

theorem flatten_replicate_ne_nil {α : Type} {r : List α} (hr : r ≠ []) {m : ℕ} (hm : m ≠ 0) :
    (List.replicate m r).flatten ≠ [] := by
  cases m with
  | zero => exact absurd rfl hm
  | succ m =>
    rw [List.replicate_succ, List.flatten_cons]
    intro h
    exact hr (List.append_eq_nil.mp h).1

theorem listMax_flatten_replicate (r : List ℝ) : ∀ m : ℕ, m ≠ 0 →
    listMax ((List.replicate m r).flatten) = listMax r := by
  by_cases hr : r = []
  · subst hr
    intro m _
    rw [flatten_replicate_nil]
  · intro m
    induction m with
    | zero => intro h; exact absurd rfl h
    | succ m ih =>
      intro h2
      cases m with
      | zero => simp
      | succ m' =>
        rw [List.replicate_succ, List.flatten_cons,
          listMax_append r _ hr (flatten_replicate_ne_nil hr (by omega)),
          ih (by omega), max_self]

theorem listMax_flatten_map_const {α : Type} (l : List α) (r : List ℝ) (hl : l ≠ []) :
    listMax ((l.map (fun _ => r)).flatten) = listMax r := by
  have h : l.map (fun _ => r) = List.replicate l.length r := List.map_const l r
  rw [h]
  exact listMax_flatten_replicate r l.length (by simpa using hl)

/-! Helper lemmas about `getD`, `linspace` and flattened index grids. -/

theorem getD_map_range {α : Type} (f : ℕ → α) {j k : ℕ} (h : j < k) (d : α) :
    ((List.range k).map f).getD j d = f j := by
  have hlen : j < ((List.range k).map f).length := by simpa using h
  rw [List.getD_eq_getElem _ _ hlen]
  simp

theorem linspace_getD (s e : ℝ) {k j : ℕ} (h : j < k) (d : ℝ) :
    (linspace s e k).getD j d = s + (e - s) * j / ((k : ℝ) - 1) := by
  unfold linspace
  exact getD_map_range _ h d

theorem length_flatMap_range_map {α : Type} (f : ℕ → ℕ → α) (m k : ℕ) :
    ((List.range m).flatMap (fun i => (List.range k).map (f i))).length = m * k := by
  rw [List.length_flatMap]
  have h : List.map (List.length ∘ fun i => (List.range k).map (f i)) (List.range m)
      = List.replicate m k := by
    have h2 : (List.length ∘ fun i => (List.range k).map (f i)) = Function.const ℕ k := by
      funext i; simp [Function.const]
    rw [h2, List.map_const, List.length_range]
  rw [h, List.sum_replicate, smul_eq_mul]

theorem getD_flatMap_range {α : Type} (f : ℕ → ℕ → α) {m k i j : ℕ}
    (hi : i < m) (hj : j < k) (d : α) :
    ((List.range m).flatMap (fun a => (List.range k).map (f a))).getD (i * k + j) d
      = f i j := by
  induction m generalizing f i with
  | zero => omega
  | succ m ih =>
    rw [List.range_succ_eq_map, List.flatMap_cons, List.flatMap_map]
    cases i with
    | zero =>
      rw [List.getD_append _ _ _ _ (by simpa using hj)]
      simpa using getD_map_range (f 0) hj d
    | succ i =>
      have hlen : ((List.range k).map (f 0)).length = k := by simp
      have hge : ((List.range k).map (f 0)).length ≤ (i + 1) * k + j := by
        rw [hlen, Nat.succ_mul]
        omega
      rw [List.getD_append_right _ _ _ _ hge]
      have hidx : (i + 1) * k + j - ((List.range k).map (f 0)).length = i * k + j := by
        rw [hlen, Nat.succ_mul]
        omega
      rw [hidx]
      have := ih (fun a => f (a + 1)) (i := i) (by omega)
      simpa [Nat.succ_eq_add_one] using this

/-! Helper lemmas about `mapM` over `Option` and the sampling domain. -/

theorem mapM_eq_some_map {α β : Type} {l : List α} {F : α → Option β} {g : α → β}
    (h : ∀ a ∈ l, F a = some (g a)) : l.mapM F = some (l.map g) := by
  induction l with
  | nil => rfl
  | cons a t ih =>
    rw [List.mapM_cons, h a (List.mem_cons_self a t),
      ih (fun x hx => h x (List.mem_cons_of_mem a hx))]
    rfl

theorem egg_equation_eq_some {B L D_L4 n x : ℝ} (hL : L / 2 ≠ 0)
    (hx : 0 ≤ 1 - (x / (L / 2)) ^ 2) :
    egg_equation B L D_L4 n x = some (egg_equation_val B L D_L4 n x) := by
  rw [egg_equation, if_neg]
  rintro (h | h)
  · exact hL h
  · linarith

theorem one_sub_div_sq_nonneg {c x : ℝ} (hc : 0 < c) (h1 : -c ≤ x) (h2 : x ≤ c) :
    0 ≤ 1 - (x / c) ^ 2 := by
  have h3 : (x / c) ^ 2 ≤ 1 := by
    rw [div_pow, div_le_one (by positivity)]
    nlinarith
  linarith

/-! Length, membership and sample-value lemmas for the grids. -/

theorem linspace_length (s e : ℝ) (k : ℕ) : (linspace s e k).length = k := by
  unfold linspace
  simp

theorem linspace_mem {s e : ℝ} {k : ℕ} {x : ℝ} (hx : x ∈ linspace s e k) :
    ∃ j : ℕ, j < k ∧ x = s + (e - s) * j / ((k : ℝ) - 1) := by
  unfold linspace at hx
  obtain ⟨j, hj, h⟩ := List.mem_map.mp hx
  exact ⟨j, List.mem_range.mp hj, h.symm⟩

theorem getD_map {α β : Type} (f : α → β) {l : List α} {j : ℕ} (hj : j < l.length)
    (d : β) (d' : α) : (l.map f).getD j d = f (l.getD j d') := by
  rw [List.getD_eq_getElem _ _ (by simpa using hj), List.getD_eq_getElem _ _ hj]
  simp

theorem generate_2d_preview_eq (B L D_L4 n : ℝ) (hL : 0 < L) :
    generate_2d_preview B L D_L4 n = some (preview_xs L, preview_ys_scaled B L D_L4 n) := by
  have hmap : (preview_xs L).mapM (egg_equation B L D_L4 n)
      = some (preview_ys B L D_L4 n) := by
    rw [preview_ys]
    apply mapM_eq_some_map
    intro x hx
    obtain ⟨j, hj, rfl⟩ := linspace_mem hx
    have hj999 : (j : ℝ) ≤ 999 := by
      have : j ≤ 999 := by omega
      exact_mod_cast this
    have hjpos : (0 : ℝ) ≤ (j : ℝ) := Nat.cast_nonneg j
    apply egg_equation_eq_some (ne_of_gt (half_pos hL))
    apply one_sub_div_sq_nonneg (half_pos hL)
    · nlinarith [mul_nonneg hL.le hjpos]
    · nlinarith [mul_nonneg hL.le (by linarith : (0 : ℝ) ≤ 999 - (j : ℝ))]
  rw [generate_2d_preview, hmap, Option.map_some']
  rfl

theorem generate_3d_model_eq (B L D_L4 n : ℝ) (hL : L ≠ 0) :
    generate_3d_model B L D_L4 n = some (meshOf B L D_L4 n) := by
  have hL2 : L / 2 ≠ 0 := div_ne_zero hL two_ne_zero
  have hmap : (mesh_xs B L).mapM (egg_equation B L D_L4 n)
      = some (mesh_Rvals B L D_L4 n) := by
    rw [mesh_Rvals]
    apply mapM_eq_some_map
    intro x hx
    rw [mesh_xs] at hx
    obtain ⟨t, ht, rfl⟩ := List.mem_map.mp hx
    apply egg_equation_eq_some hL2
    have hdiv : L / 2 * Real.cos t / (L / 2) = Real.cos t := by
      field_simp
    rw [hdiv]
    nlinarith [Real.neg_one_le_cos t, Real.cos_le_one t]
  rw [generate_3d_model, hmap, Option.map_some']
  rfl

/-! Sample-count lemmas. -/

theorem num_l_points_ge {L : ℝ} (hL : 0 < L) : 50 ≤ num_l_points L := by
  rw [num_l_points]
  have h : (50 : ℤ) ≤ ⌊L * 1.16 + 50⌋ := by
    apply Int.le_floor.mpr
    push_cast
    nlinarith [mul_pos hL (show (0 : ℝ) < 1.16 by norm_num)]
  omega

theorem num_w_points_ge {B : ℝ} (hB : 0 < B) : 50 ≤ num_w_points B := by
  rw [num_w_points]
  have h : (50 : ℤ) ≤ ⌊B * 1.16 + 50⌋ := by
    apply Int.le_floor.mpr
    push_cast
    nlinarith [mul_pos hB (show (0 : ℝ) < 1.16 by norm_num)]
  omega

theorem num_l_points_one : num_l_points 1 = 51 := by
  rw [num_l_points]
  have h : ⌊(1 : ℝ) * 1.16 + 50⌋ = 51 := by
    rw [Int.floor_eq_iff]
    norm_num
  rw [h]
  rfl

theorem num_w_points_one : num_w_points 1 = 51 := by
  rw [num_w_points]
  have h : ⌊(1 : ℝ) * 1.16 + 50⌋ = 51 := by
    rw [Int.floor_eq_iff]
    norm_num
  rw [h]
  rfl

/-! Axial grid values at the poles. -/

theorem mesh_ts_length (B : ℝ) : (mesh_ts B).length = num_w_points B := by
  rw [mesh_ts, linspace_length]

theorem mesh_ts_getD_zero {B : ℝ} (hB : 0 < B) : (mesh_ts B).getD 0 0 = 0 := by
  have hk : 50 ≤ num_w_points B := num_w_points_ge hB
  rw [mesh_ts, linspace_getD _ _ (by omega)]
  simp

theorem mesh_ts_getD_last {B : ℝ} (hB : 0 < B) :
    (mesh_ts B).getD (num_w_points B - 1) 0 = Real.pi := by
  have hk : 50 ≤ num_w_points B := num_w_points_ge hB
  rw [mesh_ts, linspace_getD _ _ (by omega)]
  have hcast : ((num_w_points B - 1 : ℕ) : ℝ) = (num_w_points B : ℝ) - 1 := by
    push_cast [Nat.cast_sub (by omega : 1 ≤ num_w_points B)]
    ring
  have hden : (num_w_points B : ℝ) - 1 ≠ 0 := by
    have h50 : (50 : ℝ) ≤ (num_w_points B : ℝ) := by exact_mod_cast hk
    linarith
  rw [hcast]
  field_simp

theorem mesh_xs_length (B L : ℝ) : (mesh_xs B L).length = num_w_points B := by
  rw [mesh_xs, List.length_map, mesh_ts_length]

theorem mesh_xs_getD {B L : ℝ} {j : ℕ} (hj : j < num_w_points B) :
    (mesh_xs B L).getD j 0 = L / 2 * Real.cos ((mesh_ts B).getD j 0) := by
  rw [mesh_xs, getD_map _ (by rw [mesh_ts_length]; exact hj) 0 0]

theorem egg_val_boundary {B L D_L4 n x : ℝ} (h : (x / (L / 2)) ^ 2 = 1) :
    egg_equation_val B L D_L4 n x = 0 := by
  unfold egg_equation_val
  rw [show 1 - (x / (L / 2)) ^ 2 = 0 by linarith, Real.sqrt_zero, mul_zero, zero_mul]

/-! Mesh grid lemmas. -/

theorem length_flatMap_const_len {α : Type} (m : ℕ) (g : ℕ → List α) (c : ℕ)
    (h : ∀ a, (g a).length = c) : ((List.range m).flatMap g).length = m * c := by
  rw [List.length_flatMap]
  have h2 : List.map (List.length ∘ g) (List.range m) = List.replicate m c := by
    have h3 : (List.length ∘ g) = Function.const ℕ c := funext (fun a => h a)
    rw [h3, List.map_const, List.length_range]
  rw [h2, List.sum_replicate, smul_eq_mul]

theorem meshVertices_length (B L D_L4 n : ℝ) :
    (meshVertices B L D_L4 n).length = num_l_points L * num_w_points B := by
  rw [meshVertices]
  exact length_flatMap_range_map _ _ _

theorem meshVertices_getD (B L D_L4 n : ℝ) {i j : ℕ} (hi : i < num_l_points L)
    (hj : j < num_w_points B) (d : ℝ × ℝ × ℝ) :
    (meshVertices B L D_L4 n).getD (i * num_w_points B + j) d = meshVertex B L D_L4 n i j := by
  rw [meshVertices]
  exact getD_flatMap_range _ hi hj d

theorem meshFaces_length (nθ nx : ℕ) :
    (meshFaces nθ nx).length = 2 * (nθ - 1) * (nx - 1) := by
  rw [meshFaces, length_flatMap_const_len (nθ - 1)
    (fun i => (List.range (nx - 1)).flatMap (fun j =>
      [(i * nx + j, i * nx + j + 1, (i + 1) * nx + j),
       (i * nx + j + 1, (i + 1) * nx + j + 1, (i + 1) * nx + j)]))
    ((nx - 1) * 2)
    (fun i => length_flatMap_const_len (nx - 1)
      (fun j => [(i * nx + j, i * nx + j + 1, (i + 1) * nx + j),
        (i * nx + j + 1, (i + 1) * nx + j + 1, (i + 1) * nx + j)])
      2 (fun j => rfl))]
  ring

theorem mem_meshFaces {nθ nx : ℕ} {f : ℕ × ℕ × ℕ} :
    f ∈ meshFaces nθ nx ↔ ∃ i < nθ - 1, ∃ j < nx - 1,
      f = (i * nx + j, i * nx + j + 1, (i + 1) * nx + j) ∨
      f = (i * nx + j + 1, (i + 1) * nx + j + 1, (i + 1) * nx + j) := by
  rw [meshFaces]
  simp only [List.mem_flatMap, List.mem_range, List.mem_cons, List.not_mem_nil, or_false,
    List.mem_singleton]

theorem grid_index_lt {m k i j : ℕ} (hm : 1 ≤ m) (hi : i ≤ m - 1) (hj : j < k) :
    i * k + j < m * k := by
  have h1 : (i + 1) * k = i * k + k := by ring
  have h2 : (i + 1) * k ≤ m * k := mul_le_mul_right' (by omega) k
  omega

theorem mesh_Rvals_length (B L D_L4 n : ℝ) :
    (mesh_Rvals B L D_L4 n).length = num_w_points B := by
  rw [mesh_Rvals, List.length_map, mesh_xs_length]

theorem mesh_Rvals_getD {B L D_L4 n : ℝ} {j : ℕ} (hj : j < num_w_points B) :
    (mesh_Rvals B L D_L4 n).getD j 0
      = egg_equation_val B L D_L4 n ((mesh_xs B L).getD j 0) := by
  rw [mesh_Rvals, getD_map _ (by rw [mesh_xs_length]; exact hj) 0 0]

theorem mesh_RsScaled_getD {B L D_L4 n : ℝ} {j : ℕ} (hj : j < num_w_points B) :
    (mesh_RsScaled B L D_L4 n).getD j 0
      = (mesh_Rvals B L D_L4 n).getD j 0 * mesh_scale B L D_L4 n := by
  rw [mesh_RsScaled, getD_map _ (by rw [mesh_Rvals_length]; exact hj) 0 0]

theorem egg_val_cos_sq_one {B L D_L4 n t : ℝ} (hL : L ≠ 0) (h : Real.cos t ^ 2 = 1) :
    egg_equation_val B L D_L4 n (L / 2 * Real.cos t) = 0 := by
  apply egg_val_boundary
  rw [mul_div_cancel_left₀ (Real.cos t) (div_ne_zero hL two_ne_zero)]
  exact h

theorem mesh_xs_getD_zero {B : ℝ} (L : ℝ) (hB : 0 < B) : (mesh_xs B L).getD 0 0 = L / 2 := by
  have hnx := num_w_points_ge hB
  rw [mesh_xs_getD (by omega), mesh_ts_getD_zero hB, Real.cos_zero, mul_one]

theorem mesh_xs_getD_last {B : ℝ} (L : ℝ) (hB : 0 < B) :
    (mesh_xs B L).getD (num_w_points B - 1) 0 = -(L / 2) := by
  have hnx := num_w_points_ge hB
  rw [mesh_xs_getD (by omega), mesh_ts_getD_last hB, Real.cos_pi]
  ring

theorem mesh_RsScaled_getD_zero {B L D_L4 n : ℝ} (hB : 0 < B) (hL : L ≠ 0) :
    (mesh_RsScaled B L D_L4 n).getD 0 0 = 0 := by
  have hnx := num_w_points_ge hB
  rw [mesh_RsScaled_getD (by omega), mesh_Rvals_getD (by omega), mesh_xs_getD (by omega),
    mesh_ts_getD_zero hB, egg_val_cos_sq_one hL (by rw [Real.cos_zero]; norm_num), zero_mul]

theorem mesh_RsScaled_getD_last {B L D_L4 n : ℝ} (hB : 0 < B) (hL : L ≠ 0) :
    (mesh_RsScaled B L D_L4 n).getD (num_w_points B - 1) 0 = 0 := by
  have hnx := num_w_points_ge hB
  rw [mesh_RsScaled_getD (by omega), mesh_Rvals_getD (by omega), mesh_xs_getD (by omega),
    mesh_ts_getD_last hB, egg_val_cos_sq_one hL (by rw [Real.cos_pi]; norm_num), zero_mul]

theorem meshVertex_pole_zero {B L D_L4 n : ℝ} (hB : 0 < B) (hL : L ≠ 0) (i : ℕ) :
    meshVertex B L D_L4 n i 0 = (L / 2, 0, 0) := by
  rw [meshVertex, mesh_xs_getD_zero L hB, mesh_RsScaled_getD_zero hB hL, zero_mul, zero_mul]

theorem meshVertex_pole_last {B L D_L4 n : ℝ} (hB : 0 < B) (hL : L ≠ 0) (i : ℕ) :
    meshVertex B L D_L4 n i (num_w_points B - 1) = (-(L / 2), 0, 0) := by
  rw [meshVertex, mesh_xs_getD_last L hB, mesh_RsScaled_getD_last hB hL, zero_mul, zero_mul]

theorem triCross_degenerate (p q : ℝ × ℝ × ℝ) : triCross p q p = (0, 0, 0) := by
  unfold triCross vcross
  simp

/-- C2: `calculate_egg_volume` integrates `pi * r(x)^2` over `[-L/2, L/2]` on the
raw, unscaled profile (no rescale factor appears in its definition), and for the
degenerate parameters `D_L4 = L/2`, `n = 0` it equals the prolate-spheroid
closed form `(4/3) * pi * (L/2) * (B/2)^2`. -/
theorem c2_volume_prolate_spheroid (B L : ℝ) (hL : 0 < L) :
    calculate_egg_volume B L (L / 2) 0 = 4 / 3 * Real.pi * (L / 2) * (B / 2) ^ 2 := by
  have ha : (0 : ℝ) < L / 2 := half_pos hL
  have hane : L / 2 ≠ 0 := ne_of_gt ha
  have hLne : L ≠ 0 := ne_of_gt hL
  rw [calculate_egg_volume]
  have hcong : Set.EqOn
      (fun x => Real.pi * egg_equation_val B L (L / 2) 0 x ^ 2)
      (fun x => Real.pi * (B / 2) ^ 2 - Real.pi * (B / 2) ^ 2 / (L / 2) ^ 2 * x ^ 2)
      (Set.uIcc (-(L / 2)) (L / 2)) := by
    intro x hx
    rw [Set.uIcc_of_le (by linarith)] at hx
    obtain ⟨hx1, hx2⟩ := hx
    have hrad : 0 ≤ 1 - (x / (L / 2)) ^ 2 := one_sub_div_sq_nonneg ha hx1 hx2
    have h2L : L / 2 / L = 1 / 2 := by
      field_simp
      ring
    have hk : L / 2 / L - 0.5 = 0 := by
      rw [h2L]
      norm_num
    simp only [egg_equation_val, hk]
    have hpoly : 1 + 0 / 10 * (x / (L / 2)) + 0 * (x / (L / 2)) ^ 2 = 1 := by ring
    rw [hpoly, mul_one, mul_pow, Real.sq_sqrt hrad]
    field_simp
    ring
  rw [intervalIntegral.integral_congr hcong,
    intervalIntegral.integral_sub intervalIntegrable_const
      ((continuous_const.mul (continuous_pow 2)).intervalIntegrable _ _),
    intervalIntegral.integral_const, intervalIntegral.integral_const_mul, integral_pow,
    smul_eq_mul]
  field_simp
  ring

/-- C2 witness: the prolate-spheroid closed form at `B = L = 2`. -/
theorem c2_witness :
    (0 : ℝ) < 2 ∧ calculate_egg_volume 2 2 (2 / 2) 0 = 4 / 3 * Real.pi * (2 / 2) * (2 / 2) ^ 2 :=
  ⟨by norm_num, c2_volume_prolate_spheroid 2 2 (by norm_num)⟩

/-- C3 counterexample: the profile function does not compute the clamped formula
`b * sqrt(max(0, 1 - (x/a)^2)) * (...)`: at `B = L = 2`, `D_L4 = 1`, `n = 0`,
`x = 4` the radicand is negative, the source's unclamped `np.sqrt` yields NaN
(modelled `none`) while the claimed clamped formula yields `0`. -/
theorem c3_counterexample :
    egg_equation 2 2 1 0 4 = none ∧ egg_equation_spec 2 2 1 0 4 = some 0 := by
  constructor
  · rw [egg_equation, if_pos]
    right
    norm_num
  · have hmax : max (0 : ℝ) (1 - ((4 : ℝ) / (2 / 2)) ^ 2) = 0 := by norm_num
    rw [egg_equation_spec, if_neg (by norm_num : ¬((2 : ℝ) / 2 = 0)), hmax, Real.sqrt_zero]
    norm_num

/-- C3 amended: the source applies `np.sqrt` to the raw radicand with no
`max(0, ...)` clamp; in exact arithmetic the radicand is nonnegative for every
`x` in `[-L/2, L/2]` (with `L > 0`), so on the valid domain the profile function
returns no NaN and agrees with the spec's clamped formula (the clamp is
inactive there). -/
theorem c3_no_nan_on_domain (B L D_L4 n x : ℝ) (hL : 0 < L)
    (h1 : -(L / 2) ≤ x) (h2 : x ≤ L / 2) :
    egg_equation B L D_L4 n x = egg_equation_spec B L D_L4 n x ∧
    egg_equation B L D_L4 n x = some (egg_equation_val B L D_L4 n x) := by
  have ha : (0 : ℝ) < L / 2 := half_pos hL
  have hrad : 0 ≤ 1 - (x / (L / 2)) ^ 2 := one_sub_div_sq_nonneg ha h1 h2
  have hsome := @egg_equation_eq_some B L D_L4 n x (ne_of_gt ha) hrad
  refine ⟨?_, hsome⟩
  rw [hsome, egg_equation_spec, if_neg (ne_of_gt ha)]
  congr 1
  unfold egg_equation_val
  rw [max_eq_right hrad]

/-- C3 witness: the amended theorem at `B = L = 2`, `D_L4 = 1`, `n = 0`, `x = 0`. -/
theorem c3_witness :
    egg_equation 2 2 1 0 0 = egg_equation_spec 2 2 1 0 0 ∧
    egg_equation 2 2 1 0 0 = some (egg_equation_val 2 2 1 0 0) :=
  c3_no_nan_on_domain 2 2 1 0 0 (by norm_num) (by norm_num) (by norm_num)

/-- C4 counterexample: for `B = -1 ≤ 0` (and `L = 2 > 0`) the profile function
does not raise any domain error: it silently returns the negative radius
`-1/2` at `x = 0`. -/
theorem c4_counterexample : egg_equation (-1) 2 1 0 0 = some (-(1 / 2)) := by
  rw [egg_equation, if_neg (by norm_num)]
  congr 1
  unfold egg_equation_val
  norm_num [Real.sqrt_one]

/-- C4 amended: the core performs no input validation: with `L > 0` the profile
function returns a value (never an error) on all of `[-L/2, L/2]` even when
`B ≤ 0`, and the mesh builder likewise silently produces a mesh; only `L = 0`
yields an undefined result (division by a zero half-length), not a descriptive
domain error.  (The `-43 ≤ B` bound keeps the derived sample count
`int(B*1.16) + 50` nonnegative, the regime in which `np.linspace` runs at all;
below it numpy rejects the count itself, which is still not the claimed
descriptive domain validation of `B`.) -/
theorem c4_no_validation (B L D_L4 n x : ℝ) (hL : 0 < L) (hB : B ≤ 0) (hB2 : -43 ≤ B)
    (h1 : -(L / 2) ≤ x) (h2 : x ≤ L / 2) :
    (egg_equation B L D_L4 n x).isSome = true ∧
    (generate_3d_model B L D_L4 n).isSome = true ∧
    egg_equation B 0 D_L4 n x = none := by
  refine ⟨?_, ?_, ?_⟩
  · rw [egg_equation_eq_some (ne_of_gt (half_pos hL))
      (one_sub_div_sq_nonneg (half_pos hL) h1 h2)]
    rfl
  · rw [generate_3d_model_eq B L D_L4 n (ne_of_gt hL)]
    rfl
  · rw [egg_equation, if_pos]
    left
    norm_num

/-- C4 witness: the amended theorem at `B = -1`, `L = 2`, `D_L4 = 1`, `n = 0`,
`x = 0`. -/
theorem c4_witness :
    (egg_equation (-1) 2 1 0 0).isSome = true ∧
    (generate_3d_model (-1) 2 1 0).isSome = true ∧
    egg_equation (-1) 0 1 0 0 = none :=
  c4_no_validation (-1) 2 1 0 0 (by norm_num) (by norm_num) (by norm_num) (by norm_num)
    (by norm_num)

/-- C6 counterexample: for the valid sizes `B = L = 2` but `D_L4 = -19` (any
real `D_L4` is allowed by the claim), the profile at `x = 3/5 ∈ [-L/2, L/2]`
is the negative value `-52/25`, so the half-width can be negative on the valid
domain. -/
theorem c6_counterexample :
    egg_equation 2 2 (-19) 0 (3 / 5) = some (-(52 / 25)) ∧ -(52 / 25 : ℝ) < 0 := by
  constructor
  · rw [egg_equation, if_neg (by norm_num)]
    congr 1
    unfold egg_equation_val
    rw [show ((3 : ℝ) / 5 / (2 / 2)) = 3 / 5 by norm_num,
      show (1 : ℝ) - (3 / 5) ^ 2 = (4 / 5) ^ 2 by norm_num,
      Real.sqrt_sq (by norm_num : (0 : ℝ) ≤ 4 / 5)]
    norm_num
  · norm_num

/-- C6 amended: the profile is nonnegative on `[-L/2, L/2]` for `L, B > 0`
provided additionally `D_L4 ≥ 0` and `0 ≤ n ≤ 5` (so that the shape polynomial
`1 + c*u + k*u^2` with `k ≥ -1/2`, `0 ≤ c ≤ 1/2` is nonnegative on
`[-1, 1]`); for unrestricted real `D_L4`, `n` the profile can be negative. -/
theorem c6_radius_nonneg (B L D_L4 n x r : ℝ) (hL : 0 < L) (hB : 0 < B)
    (hD : 0 ≤ D_L4) (hn0 : 0 ≤ n) (hn5 : n ≤ 5)
    (h1 : -(L / 2) ≤ x) (h2 : x ≤ L / 2)
    (hr : egg_equation B L D_L4 n x = some r) : 0 ≤ r := by
  have ha : (0 : ℝ) < L / 2 := half_pos hL
  have hrad : 0 ≤ 1 - (x / (L / 2)) ^ 2 := one_sub_div_sq_nonneg ha h1 h2
  rw [egg_equation_eq_some (ne_of_gt ha) hrad] at hr
  have hval := Option.some.inj hr
  subst hval
  unfold egg_equation_val
  rw [show (0.5 : ℝ) = 1 / 2 by norm_num]
  have hu1 : -1 ≤ x / (L / 2) := by
    rw [neg_le, ← neg_div]
    exact div_le_one_of_le (by linarith) ha.le
  have hu2 : x / (L / 2) ≤ 1 := div_le_one_of_le h2 ha.le
  have hsq1 : (x / (L / 2)) ^ 2 ≤ 1 := by nlinarith
  have hc0 : 0 ≤ n / 10 := by linarith
  have hc5 : n / 10 ≤ 1 / 2 := by linarith
  have hk : -(1 / 2) ≤ D_L4 / L - 1 / 2 := by
    have : 0 ≤ D_L4 / L := div_nonneg hD hL.le
    linarith
  have hcu : -(1 / 2) ≤ n / 10 * (x / (L / 2)) := by
    nlinarith
  have hku : -(1 / 2) ≤ (D_L4 / L - 1 / 2) * (x / (L / 2)) ^ 2 := by
    nlinarith [sq_nonneg (x / (L / 2))]
  have hpoly : 0 ≤ 1 + n / 10 * (x / (L / 2)) + (D_L4 / L - 1 / 2) * (x / (L / 2)) ^ 2 := by
    linarith
  exact mul_nonneg (mul_nonneg (by linarith) (Real.sqrt_nonneg _)) hpoly

/-- C6 witness: the amended theorem at `B = L = 2`, `D_L4 = 1`, `n = 0`,
`x = 0`, where the profile value is `1`. -/
theorem c6_witness : egg_equation 2 2 1 0 0 = some 1 ∧ (0 : ℝ) ≤ 1 := by
  have heq : egg_equation 2 2 1 0 0 = some 1 := by
    rw [egg_equation, if_neg (by norm_num)]
    congr 1
    unfold egg_equation_val
    norm_num [Real.sqrt_one]
  exact ⟨heq, c6_radius_nonneg 2 2 1 0 0 1 (by norm_num) (by norm_num) (by norm_num)
    (by norm_num) (by norm_num) (by norm_num) (by norm_num) heq⟩

/-- C8: the mesh builder is deterministic: it is a pure function of the four
shape parameters (the embedding of `generate_3d_model` reads no other state, as
the source's geometry computation uses no randomness or ambient mutable state),
so equal parameters give identical vertex and face arrays. -/
theorem c8_deterministic (B₁ L₁ D₁ n₁ B₂ L₂ D₂ n₂ : ℝ)
    (hB : B₁ = B₂) (hL : L₁ = L₂) (hD : D₁ = D₂) (hn : n₁ = n₂) :
    generate_3d_model B₁ L₁ D₁ n₁ = generate_3d_model B₂ L₂ D₂ n₂ := by
  subst hB
  subst hL
  subst hD
  subst hn
  rfl

/-- C8 witness: two invocations with the chicken-egg-like parameters agree. -/
theorem c8_witness : generate_3d_model 40 58 25 2 = generate_3d_model 40 58 25 2 :=
  c8_deterministic 40 58 25 2 40 58 25 2 rfl rfl rfl rfl

/-- C7: for parameters the mesh builder accepts (`L > 0`, `B > 0`), the mesh has
exactly `n_theta * n_x` vertices and `2*(n_theta-1)*(n_x-1)` triangular faces,
and every face is a triple of three distinct vertex indices, each below the
vertex count. -/
theorem c7_mesh_invariants (B L D_L4 n : ℝ) (hL : 0 < L) (hB : 0 < B) :
    generate_3d_model B L D_L4 n = some (meshOf B L D_L4 n) ∧
    (meshOf B L D_L4 n).vertices.length = num_l_points L * num_w_points B ∧
    (meshOf B L D_L4 n).faces.length = 2 * (num_l_points L - 1) * (num_w_points B - 1) ∧
    ∀ f ∈ (meshOf B L D_L4 n).faces,
      f.1 ≠ f.2.1 ∧ f.1 ≠ f.2.2 ∧ f.2.1 ≠ f.2.2 ∧
      f.1 < num_l_points L * num_w_points B ∧
      f.2.1 < num_l_points L * num_w_points B ∧
      f.2.2 < num_l_points L * num_w_points B := by
  have hnθ : 50 ≤ num_l_points L := num_l_points_ge hL
  have hnx : 50 ≤ num_w_points B := num_w_points_ge hB
  refine ⟨generate_3d_model_eq B L D_L4 n (ne_of_gt hL), meshVertices_length B L D_L4 n,
    meshFaces_length _ _, ?_⟩
  intro f hf
  obtain ⟨i, hi, j, hj, hc⟩ := mem_meshFaces.mp hf
  have e1 : (i + 1) * num_w_points B = i * num_w_points B + num_w_points B := by ring
  rcases hc with rfl | rfl
  · dsimp only
    exact ⟨by omega, by omega, by omega,
      @grid_index_lt (num_l_points L) (num_w_points B) i j (by omega) (by omega) (by omega),
      @grid_index_lt (num_l_points L) (num_w_points B) i (j + 1) (by omega) (by omega) (by omega),
      @grid_index_lt (num_l_points L) (num_w_points B) (i + 1) j (by omega) (by omega) (by omega)⟩
  · dsimp only
    exact ⟨by omega, by omega, by omega,
      @grid_index_lt (num_l_points L) (num_w_points B) i (j + 1) (by omega) (by omega) (by omega),
      @grid_index_lt (num_l_points L) (num_w_points B) (i + 1) (j + 1) (by omega) (by omega)
        (by omega),
      @grid_index_lt (num_l_points L) (num_w_points B) (i + 1) j (by omega) (by omega) (by omega)⟩

/-- C7 witness: the invariants instantiated at `B = L = 1`, `D_L4 = 1/2`,
`n = 2`, where `n_theta = n_x = 51`. -/
theorem c7_witness :
    generate_3d_model 1 1 (1 / 2) 2 = some (meshOf 1 1 (1 / 2) 2) ∧
    (meshOf 1 1 (1 / 2) 2).vertices.length = num_l_points 1 * num_w_points 1 ∧
    (meshOf 1 1 (1 / 2) 2).faces.length = 2 * (num_l_points 1 - 1) * (num_w_points 1 - 1) ∧
    ∀ f ∈ (meshOf 1 1 (1 / 2) 2).faces,
      f.1 ≠ f.2.1 ∧ f.1 ≠ f.2.2 ∧ f.2.1 ≠ f.2.2 ∧
      f.1 < num_l_points 1 * num_w_points 1 ∧
      f.2.1 < num_l_points 1 * num_w_points 1 ∧
      f.2.2 < num_l_points 1 * num_w_points 1 :=
  c7_mesh_invariants 1 1 (1 / 2) 2 (by norm_num) (by norm_num)

/-- C9: the rescale touches only the radial coordinates: every vertex's
x-coordinate is the unscaled axial sample `(L/2) * cos(t_j)` (no scale factor
appears), every vertex x lies in `[-L/2, L/2]`, and both bounds are attained
(at the first and last axial sample columns). -/
theorem c9_axial_unscaled (B L D_L4 n : ℝ) (hL : 0 < L) (hB : 0 < B) :
    generate_3d_model B L D_L4 n = some (meshOf B L D_L4 n) ∧
    (∀ i < num_l_points L, ∀ j < num_w_points B,
      ((meshOf B L D_L4 n).vertices.getD (i * num_w_points B + j) (0, 0, 0)).1
        = L / 2 * Real.cos ((mesh_ts B).getD j 0)) ∧
    (∀ v ∈ (meshOf B L D_L4 n).vertices, -(L / 2) ≤ v.1 ∧ v.1 ≤ L / 2) ∧
    ((meshOf B L D_L4 n).vertices.getD 0 (0, 0, 0)).1 = L / 2 ∧
    ((meshOf B L D_L4 n).vertices.getD (num_w_points B - 1) (0, 0, 0)).1 = -(L / 2) := by
  have hnθ : 50 ≤ num_l_points L := num_l_points_ge hL
  have hnx : 50 ≤ num_w_points B := num_w_points_ge hB
  refine ⟨generate_3d_model_eq B L D_L4 n (ne_of_gt hL), ?_, ?_, ?_, ?_⟩
  · intro i hi j hj
    rw [show (meshOf B L D_L4 n).vertices = meshVertices B L D_L4 n from rfl,
      meshVertices_getD B L D_L4 n hi hj]
    simp only [meshVertex]
    rw [mesh_xs_getD hj]
  · intro v hv
    rw [show (meshOf B L D_L4 n).vertices = meshVertices B L D_L4 n from rfl,
      meshVertices] at hv
    obtain ⟨i, hi, hv2⟩ := List.mem_flatMap.mp hv
    obtain ⟨j, hj, rfl⟩ := List.mem_map.mp hv2
    have hjr : j < num_w_points B := List.mem_range.mp hj
    simp only [meshVertex]
    rw [mesh_xs_getD hjr]
    have hc1 := Real.neg_one_le_cos ((mesh_ts B).getD j 0)
    have hc2 := Real.cos_le_one ((mesh_ts B).getD j 0)
    have ha : (0 : ℝ) < L / 2 := half_pos hL
    constructor
    · nlinarith
    · nlinarith
  · have h := meshVertices_getD B L D_L4 n (i := 0) (j := 0) (by omega) (by omega) (0, 0, 0)
    rw [Nat.zero_mul, Nat.add_zero] at h
    rw [show (meshOf B L D_L4 n).vertices = meshVertices B L D_L4 n from rfl, h,
      meshVertex_pole_zero hB (ne_of_gt hL) 0]
  · have h := meshVertices_getD B L D_L4 n (i := 0) (j := num_w_points B - 1)
      (by omega) (by omega) (0, 0, 0)
    rw [Nat.zero_mul, Nat.zero_add] at h
    rw [show (meshOf B L D_L4 n).vertices = meshVertices B L D_L4 n from rfl, h,
      meshVertex_pole_last hB (ne_of_gt hL) 0]

/-- C9 witness: at `B = L = 1`, `D_L4 = 1/2`, `n = 2` the builder succeeds and
the first pole vertex has x-coordinate `1/2 = L/2` and the opposite pole
`-(1/2)`. -/
theorem c9_witness :
    generate_3d_model 1 1 (1 / 2) 2 = some (meshOf 1 1 (1 / 2) 2) ∧
    ((meshOf 1 1 (1 / 2) 2).vertices.getD 0 (0, 0, 0)).1 = 1 / 2 ∧
    ((meshOf 1 1 (1 / 2) 2).vertices.getD (num_w_points 1 - 1) (0, 0, 0)).1 = -(1 / 2) := by
  have h := c9_axial_unscaled 1 1 (1 / 2) 2 (by norm_num) (by norm_num)
  exact ⟨h.1, h.2.2.2.1, h.2.2.2.2⟩

/-- C10: the first and last axial columns are pole rings: the scaled radius is
exactly zero there, each of the `n_theta` vertices of the first column equals
`(L/2, 0, 0)` and each of the last column equals `(-L/2, 0, 0)` (coincident
duplicates), and the quad faces generated at those columns reference these
coincident pole vertices. -/
theorem c10_pole_duplication (B L D_L4 n : ℝ) (hL : 0 < L) (hB : 0 < B) :
    (mesh_RsScaled B L D_L4 n).getD 0 0 = 0 ∧
    (mesh_RsScaled B L D_L4 n).getD (num_w_points B - 1) 0 = 0 ∧
    (∀ i < num_l_points L,
      (meshOf B L D_L4 n).vertices.getD (i * num_w_points B) (0, 0, 0) = (L / 2, 0, 0) ∧
      (meshOf B L D_L4 n).vertices.getD (i * num_w_points B + (num_w_points B - 1)) (0, 0, 0)
        = (-(L / 2), 0, 0)) ∧
    (∀ i < num_l_points L - 1,
      (i * num_w_points B, i * num_w_points B + 1, (i + 1) * num_w_points B)
        ∈ (meshOf B L D_L4 n).faces ∧
      (i * num_w_points B + (num_w_points B - 1),
       (i + 1) * num_w_points B + (num_w_points B - 1),
       (i + 1) * num_w_points B + (num_w_points B - 2)) ∈ (meshOf B L D_L4 n).faces) := by
  have hnθ : 50 ≤ num_l_points L := num_l_points_ge hL
  have hnx : 50 ≤ num_w_points B := num_w_points_ge hB
  refine ⟨mesh_RsScaled_getD_zero hB (ne_of_gt hL), mesh_RsScaled_getD_last hB (ne_of_gt hL),
    ?_, ?_⟩
  · intro i hi
    constructor
    · have h := meshVertices_getD B L D_L4 n (i := i) (j := 0) hi (by omega) (0, 0, 0)
      rw [Nat.add_zero] at h
      rw [show (meshOf B L D_L4 n).vertices = meshVertices B L D_L4 n from rfl, h,
        meshVertex_pole_zero hB (ne_of_gt hL) i]
    · have h := meshVertices_getD B L D_L4 n (i := i) (j := num_w_points B - 1)
        hi (by omega) (0, 0, 0)
      rw [show (meshOf B L D_L4 n).vertices = meshVertices B L D_L4 n from rfl, h,
        meshVertex_pole_last hB (ne_of_gt hL) i]
  · intro i hi
    constructor
    · have h := (@mem_meshFaces (num_l_points L) (num_w_points B)
        (i * num_w_points B + 0, i * num_w_points B + 0 + 1,
         (i + 1) * num_w_points B + 0)).mpr ⟨i, hi, 0, by omega, Or.inl rfl⟩
      simpa using h
    · have e : num_w_points B - 1 = (num_w_points B - 2) + 1 := by omega
      rw [e]
      exact (@mem_meshFaces (num_l_points L) (num_w_points B)
        (i * num_w_points B + (num_w_points B - 2) + 1,
         (i + 1) * num_w_points B + (num_w_points B - 2) + 1,
         (i + 1) * num_w_points B + (num_w_points B - 2))).mpr
        ⟨i, hi, num_w_points B - 2, by omega, Or.inr rfl⟩

/-- C10 witness: at `B = L = 1`, `D_L4 = 1/2`, `n = 2`: the scaled radius of the
first column is zero, vertex 0 is the pole `(1/2, 0, 0)`, and the first quad
face `(0, 1, 51)` references the coincident pole vertices 0 and 51. -/
theorem c10_witness :
    (mesh_RsScaled 1 1 (1 / 2) 2).getD 0 0 = 0 ∧
    (meshOf 1 1 (1 / 2) 2).vertices.getD 0 (0, 0, 0) = (1 / 2, 0, 0) ∧
    (0, 1, 51) ∈ (meshOf 1 1 (1 / 2) 2).faces := by
  have h := c10_pole_duplication 1 1 (1 / 2) 2 (by norm_num) (by norm_num)
  refine ⟨h.1, ?_, ?_⟩
  · have h2 := (h.2.2.1 0 (by rw [num_l_points_one]; norm_num)).1
    simpa using h2
  · have h3 := (h.2.2.2 0 (by rw [num_l_points_one]; norm_num)).1
    simpa [num_w_points_one] using h3

/-- Pole degeneracies of the unit mesh `B = L = 1`: the builder succeeds for any
real `D_L4`, `n`, the face `(0, 1, 51)` is in the mesh, and its two pole
vertices 0 and 51 coincide at `(1/2, 0, 0)`, so that face's edge cross product
vanishes (zero area). -/
theorem unit_mesh_pole_facts (D_L4 n : ℝ) :
    generate_3d_model 1 1 D_L4 n = some (meshOf 1 1 D_L4 n) ∧
    (0, 1, 51) ∈ (meshOf 1 1 D_L4 n).faces ∧
    (meshOf 1 1 D_L4 n).vertices.getD 0 (0, 0, 0) = (1 / 2, 0, 0) ∧
    (meshOf 1 1 D_L4 n).vertices.getD 51 (0, 0, 0) = (1 / 2, 0, 0) ∧
    triCross ((meshOf 1 1 D_L4 n).vertices.getD 0 (0, 0, 0))
      ((meshOf 1 1 D_L4 n).vertices.getD 1 (0, 0, 0))
      ((meshOf 1 1 D_L4 n).vertices.getD 51 (0, 0, 0)) = (0, 0, 0) := by
  have hB : (0 : ℝ) < 1 := by norm_num
  have hL : (1 : ℝ) ≠ 0 := one_ne_zero
  have hnθ : num_l_points 1 = 51 := num_l_points_one
  have hnx : num_w_points 1 = 51 := num_w_points_one
  have hv0 : (meshOf 1 1 D_L4 n).vertices.getD 0 (0, 0, 0) = (1 / 2, 0, 0) := by
    have h := meshVertices_getD 1 1 D_L4 n (i := 0) (j := 0)
      (by omega) (by omega) (0, 0, 0)
    rw [Nat.zero_mul, Nat.add_zero] at h
    rw [show (meshOf 1 1 D_L4 n).vertices = meshVertices 1 1 D_L4 n from rfl, h,
      meshVertex_pole_zero hB hL 0]
  have hv51 : (meshOf 1 1 D_L4 n).vertices.getD 51 (0, 0, 0) = (1 / 2, 0, 0) := by
    have h := meshVertices_getD 1 1 D_L4 n (i := 1) (j := 0)
      (by omega) (by omega) (0, 0, 0)
    rw [Nat.add_zero] at h
    rw [show (meshOf 1 1 D_L4 n).vertices = meshVertices 1 1 D_L4 n from rfl,
      show (51 : ℕ) = 1 * num_w_points 1 by rw [hnx], h,
      meshVertex_pole_zero hB hL 1]
  refine ⟨generate_3d_model_eq 1 1 D_L4 n hL, ?_, hv0, hv51, ?_⟩
  · have h := (@mem_meshFaces (num_l_points 1) (num_w_points 1)
      (0 * num_w_points 1 + 0, 0 * num_w_points 1 + 0 + 1,
       (0 + 1) * num_w_points 1 + 0)).mpr ⟨0, by omega, 0, by omega, Or.inl rfl⟩
    show (0, 1, 51) ∈ meshFaces (num_l_points 1) (num_w_points 1)
    simpa [hnx] using h
  · rw [hv0, hv51]
    exact triCross_degenerate (1 / 2, 0, 0) ((meshOf 1 1 D_L4 n).vertices.getD 1 (0, 0, 0))

/-- C5 counterexample: at `L = B = 1` with nominal `D_L4 = 1/2`, `n = 2`, the
mesh contains the face `(0, 1, 51)` whose triangle has zero area (its edge
cross product vanishes because vertices 0 and 51 are the same pole point), so
the claim that no triangle has zero area fails. -/
theorem c5_counterexample :
    (0, 1, 51) ∈ (meshOf 1 1 (1 / 2) 2).faces ∧
    triCross ((meshOf 1 1 (1 / 2) 2).vertices.getD 0 (0, 0, 0))
      ((meshOf 1 1 (1 / 2) 2).vertices.getD 1 (0, 0, 0))
      ((meshOf 1 1 (1 / 2) 2).vertices.getD 51 (0, 0, 0)) = (0, 0, 0) := by
  have h := unit_mesh_pole_facts (1 / 2) 2
  exact ⟨h.2.1, h.2.2.2.2⟩

theorem preview_ys_max_pos : 0 < listMax (preview_ys 1 2 1 0) := by
  have hlen : 499 < (preview_ys 1 2 1 0).length := by
    rw [preview_ys, List.length_map, preview_xs, linspace_length]
    norm_num
  have hmem : (preview_ys 1 2 1 0).getD 499 0 ∈ preview_ys 1 2 1 0 := by
    rw [List.getD_eq_getElem _ _ hlen]
    exact List.getElem_mem hlen
  have hval : (preview_ys 1 2 1 0).getD 499 0 = egg_equation_val 1 2 1 0 (-(1 / 999)) := by
    rw [preview_ys, getD_map _ (by rw [preview_xs, linspace_length]; norm_num) 0 0,
      preview_xs, linspace_getD _ _ (by norm_num : (499 : ℕ) < 1000)]
    congr 1
    push_cast
    norm_num
  have hpos : 0 < egg_equation_val 1 2 1 0 (-(1 / 999)) := by
    unfold egg_equation_val
    have h1 : (0 : ℝ) < Real.sqrt (1 - (-(1 / 999) / (2 / 2)) ^ 2) := by
      apply Real.sqrt_pos.mpr
      norm_num
    have h2 : (1 : ℝ) + 0 / 10 * (-(1 / 999) / (2 / 2))
        + (1 / 2 - 0.5) * (-(1 / 999) / (2 / 2)) ^ 2 = 1 := by
      norm_num
    rw [h2, mul_one]
    exact mul_pos (by norm_num) h1
  rw [hval] at hmem
  exact lt_of_lt_of_le hpos (le_listMax_of_mem hmem)

theorem mesh_Rvals_max_pos : 0 < listMax (mesh_Rvals 1 2 1 0) := by
  have hnx : num_w_points 1 = 51 := num_w_points_one
  have h25 : (25 : ℕ) < num_w_points 1 := by omega
  have hval : (mesh_Rvals 1 2 1 0).getD 25 0 = egg_equation_val 1 2 1 0 0 := by
    rw [mesh_Rvals_getD h25, mesh_xs_getD h25]
    have ht : (mesh_ts 1).getD 25 0 = Real.pi / 2 := by
      rw [mesh_ts, hnx, linspace_getD _ _ (by norm_num : (25 : ℕ) < 51)]
      push_cast
      field_simp
      ring
    rw [ht, Real.cos_pi_div_two, mul_zero]
  have hlen : 25 < (mesh_Rvals 1 2 1 0).length := by
    rw [mesh_Rvals_length]
    omega
  have hmem : (mesh_Rvals 1 2 1 0).getD 25 0 ∈ mesh_Rvals 1 2 1 0 := by
    rw [List.getD_eq_getElem _ _ hlen]
    exact List.getElem_mem hlen
  have hpos : 0 < egg_equation_val 1 2 1 0 0 := by
    unfold egg_equation_val
    norm_num [Real.sqrt_one]
  rw [hval] at hmem
  exact lt_of_lt_of_le hpos (le_listMax_of_mem hmem)

/-- C1: for `L, B > 0` with positive sampled maxima, the preview sampler and
the mesh builder each rescale their own samples by `B / (max * 2)`, so the
rescaled maximum diameter (twice the maximum rescaled radius) of the sampled
curve and of the mesh radii each equals `B` exactly. -/
theorem c1_rescaled_diameter (B L D_L4 n : ℝ) (hL : 0 < L) (hB : 0 < B)
    (hprev : 0 < listMax (preview_ys B L D_L4 n))
    (hmesh : 0 < listMax (mesh_Rvals B L D_L4 n)) :
    generate_2d_preview B L D_L4 n = some (preview_xs L, preview_ys_scaled B L D_L4 n) ∧
    listMax (preview_ys_scaled B L D_L4 n) * 2 = B ∧
    generate_3d_model B L D_L4 n = some (meshOf B L D_L4 n) ∧
    listMax (mesh_RsScaled B L D_L4 n) * 2 = B := by
  have hkey : ∀ M : ℝ, 0 < M → M * (B / (M * 2)) * 2 = B := by
    intro M hM
    have hM2 : M * 2 ≠ 0 := ne_of_gt (by linarith)
    field_simp
    ring
  refine ⟨generate_2d_preview_eq B L D_L4 n hL, ?_,
    generate_3d_model_eq B L D_L4 n (ne_of_gt hL), ?_⟩
  · rw [preview_ys_scaled]
    have hs : 0 ≤ preview_scale B L D_L4 n := by
      rw [preview_scale]
      exact le_of_lt (div_pos hB (by linarith))
    rw [listMax_map_mul _ hs, preview_scale]
    exact hkey _ hprev
  · rw [mesh_RsScaled]
    have hflat : listMax (((mesh_thetas L).map (fun _ => mesh_Rvals B L D_L4 n)).flatten)
        = listMax (mesh_Rvals B L D_L4 n) := by
      apply listMax_flatten_map_const
      have hlen : (mesh_thetas L).length = num_l_points L := by
        rw [mesh_thetas, linspace_length]
      have h50 := num_l_points_ge hL
      intro hnil
      rw [hnil] at hlen
      simp at hlen
      omega
    have hs : 0 ≤ mesh_scale B L D_L4 n := by
      rw [mesh_scale, mesh_maxWidth, hflat]
      exact le_of_lt (div_pos hB (by linarith))
    rw [listMax_map_mul _ hs, mesh_scale, mesh_maxWidth, hflat]
    exact hkey _ hmesh

/-- C1 witness: at `B = 1`, `L = 2`, `D_L4 = 1`, `n = 0` both sampled maxima
are positive and the rescaled maximum diameters equal `B = 1`. -/
theorem c1_witness :
    generate_2d_preview 1 2 1 0 = some (preview_xs 2, preview_ys_scaled 1 2 1 0) ∧
    listMax (preview_ys_scaled 1 2 1 0) * 2 = 1 ∧
    generate_3d_model 1 2 1 0 = some (meshOf 1 2 1 0) ∧
    listMax (mesh_RsScaled 1 2 1 0) * 2 = 1 :=
  c1_rescaled_diameter 1 2 1 0 (by norm_num) (by norm_num)
    preview_ys_max_pos mesh_Rvals_max_pos

/-- C5 amended: for `L = B = 1` (any `D_L4`, `n`) the mesh builder does produce
a well-defined mesh with no NaN coordinate (every profile sample is defined and
the builder returns it), but the mesh is not free of zero-area triangles: the
pole-column faces, e.g. `(0, 1, 51)`, have two coincident pole vertices and
hence vanishing edge cross product. -/
theorem c5_small_mesh (D_L4 n : ℝ) :
    generate_3d_model 1 1 D_L4 n = some (meshOf 1 1 D_L4 n) ∧
    (0, 1, 51) ∈ (meshOf 1 1 D_L4 n).faces ∧
    (meshOf 1 1 D_L4 n).vertices.getD 0 (0, 0, 0) = (1 / 2, 0, 0) ∧
    (meshOf 1 1 D_L4 n).vertices.getD 51 (0, 0, 0) = (1 / 2, 0, 0) ∧
    triCross ((meshOf 1 1 D_L4 n).vertices.getD 0 (0, 0, 0))
      ((meshOf 1 1 D_L4 n).vertices.getD 1 (0, 0, 0))
      ((meshOf 1 1 D_L4 n).vertices.getD 51 (0, 0, 0)) = (0, 0, 0) :=
  unit_mesh_pole_facts D_L4 n

end

end EggGen
